import Mathlib

/-!
# Verification of the Flixkart PII detector

A shallow embedding of `detector_full_dhananjay_garg.py` (the PII
detection / redaction engine).  Text is modelled as `List Char`; field
names are `String`; records (decoded JSON objects) are association
lists `List (String × List Char)` in insertion order, mirroring the
iteration order of the host language's dictionaries.

The regular expressions of the source are embedded as explicit matching
functions.  Character classes follow the ASCII reading of the host
regex classes (`\w` = ASCII alphanumerics plus underscore, `\s` = the six
ASCII whitespace characters, `\d` = ASCII digits); all inputs discussed
by the claims are ASCII.  Each `...Len` function returns the length of
the match preferred by the backtracking engine at the given position
(`none` when no match exists there); backtracking is complete, so
`(...Len).isSome` is exactly "a match starts here".  The `prev` argument
carries the character immediately before the current position, which is
what the `\b` word-boundary assertions inspect.
-/

namespace PII

/-- ASCII whitespace, the `\s` class and the characters trimmed by `strip()`. -/
def isSpaceCh (c : Char) : Bool :=
  c == ' ' || c == '\t' || c == '\n' || c == '\r' || c == '\x0b' || c == '\x0c'

/-- The `\w` word-character class: ASCII alphanumerics and underscore. -/
def isWordCh (c : Char) : Bool :=
  c.isAlphanum || c == '_'

/-- The `[\w.]` class used by the payment-handle pattern. -/
def isWordDot (c : Char) : Bool :=
  isWordCh c || c == '.'

/-- The `[A-Za-z0-9._%+-]` class: local part of the email pattern. -/
def isLocalCh (c : Char) : Bool :=
  c.isAlphanum || c == '.' || c == '_' || c == '%' || c == '+' || c == '-'

/-- The `[A-Za-z0-9.-]` class: domain part of the email pattern. -/
def isDomCh (c : Char) : Bool :=
  c.isAlphanum || c == '.' || c == '-'

/-- The `[A-Z|a-z]` class of the email pattern's TLD part (the literal `|`
is part of the class in the source). -/
def isTldCh (c : Char) : Bool :=
  c.isAlpha || c == '|'

/-- The `[\s-]` class: optional group separator of the national-id pattern. -/
def isSepCh (c : Char) : Bool :=
  isSpaceCh c || c == '-'

/-- Whether an optional character is a word character (`none` stands for
the edge of the text). -/
def wOpt : Option Char → Bool
  | none => false
  | some c => isWordCh c

/-- The `\b` assertion between a previous and a next character. -/
def bdry (p n : Option Char) : Bool :=
  wOpt p != wOpt n

/-- `Python str.strip()`: remove leading and trailing whitespace. -/
def strip (s : List Char) : List Char :=
  ((s.dropWhile isSpaceCh).reverse.dropWhile isSpaceCh).reverse

/-- Worker for `pySplit`; `acc` holds the current word reversed. -/
def pySplitAux (acc : List Char) : List Char → List (List Char)
  | [] => if acc = [] then [] else [acc.reverse]
  | c :: rest =>
    if isSpaceCh c then
      if acc = [] then pySplitAux [] rest else acc.reverse :: pySplitAux [] rest
    else pySplitAux (c :: acc) rest

/-- `Python str.split()` with no argument: split on whitespace runs,
dropping empty tokens. -/
def pySplit (s : List Char) : List (List Char) :=
  pySplitAux [] s

/-- `' '.join`: join words with single spaces. -/
def joinSpace : List (List Char) → List Char
  | [] => []
  | [w] => w
  | w :: rest => w ++ ' ' :: joinSpace rest

/-- The generic redaction token `[REDACTED]`. -/
def redactToken : List Char :=
  ['[', 'R', 'E', 'D', 'A', 'C', 'T', 'E', 'D', ']']

/-! ## The pattern library

`phone_pattern    = \b\d{10}\b`
`aadhar_pattern   = \b\d{4}[\s-]?\d{4}[\s-]?\d{4}\b|\b\d{12}\b`
`passport_pattern = \b[A-Z]\d{7}\b`
`upi_pattern      = \b[\w.]+@[\w.]+\b|\b\d{10}@[a-zA-Z]+\b`
`email_pattern    = \b[A-Za-z0-9._%+-]+@[A-Za-z0-9.-]+\.[A-Z|a-z]{2,}\b`
-/

/-- Match length of `\b\d{10}\b` at the current position. -/
def phoneLen (prev : Option Char) (s : List Char) : Option Nat :=
  if wOpt prev then none
  else if (s.take 10).length == 10 && (s.take 10).all Char.isDigit &&
      (match (s.drop 10).head? with
       | none => true
       | some c => !isWordCh c) then
    some 10
  else none

/-- Consume four ASCII digits. -/
def takeDigits4 : List Char → Option (List Char)
  | a :: b :: c :: d :: rest =>
    if a.isDigit && b.isDigit && c.isDigit && d.isDigit then some rest else none
  | _ => none

/-- Consume one `[\s-]` separator character. -/
def takeSep : List Char → Option (List Char)
  | c :: rest => if isSepCh c then some rest else none
  | _ => none

/-- One alternative of the national-id pattern: `\d{4} sep? \d{4} sep? \d{4} \b`,
with the two separators forced present (`true`) or absent (`false`). -/
def aadharVariant (b1 b2 : Bool) (s : List Char) : Bool :=
  (do
    let r1 ← takeDigits4 s
    let r2 ← if b1 then takeSep r1 else some r1
    let r3 ← takeDigits4 r2
    let r4 ← if b2 then takeSep r3 else some r3
    let r5 ← takeDigits4 r4
    match r5.head? with
    | none => some ()
    | some c => if isWordCh c then none else some ()).isSome

/-- Match length of the national-id pattern at the current position.  The
greedy `[\s-]?` groups prefer a separator, so variants are tried in the
order (sep, sep), (sep, ·), (·, sep), (·, ·); the second alternative
`\b\d{12}\b` coincides with the separator-free variant of the first and
never fires on its own. -/
def aadharLen (prev : Option Char) (s : List Char) : Option Nat :=
  if wOpt prev then none
  else if aadharVariant true true s then some 14
  else if aadharVariant true false s then some 13
  else if aadharVariant false true s then some 13
  else if aadharVariant false false s then some 12
  else none

/-- Match length of `\b[A-Z]\d{7}\b` at the current position. -/
def passportLen (prev : Option Char) (s : List Char) : Option Nat :=
  match s with
  | [] => none
  | c :: rest =>
    if !wOpt prev && c.isUpper && (rest.take 7).length == 7 &&
        (rest.take 7).all Char.isDigit &&
        (match (rest.drop 7).head? with
         | none => true
         | some c2 => !isWordCh c2) then
      some 8
    else none

/-- `\b` test after consuming `k` characters of `t` (the consumed part is
nonempty in every use). -/
def bdryOkAt (t : List Char) (k : Nat) : Bool :=
  match (t.take k).getLast? with
  | none => false
  | some l => bdry (some l) ((t.drop k).head?)

/-- Greedy search for the longest `k` with `1 ≤ k ≤ bound` such that the
first `k` characters of `t` can close a `+` group with a `\b` after it. -/
def bestBdry : Nat → List Char → Option Nat
  | 0, _ => none
  | k + 1, t => if bdryOkAt t (k + 1) then some (k + 1) else bestBdry k t

/-- Match length of `[\w.]+\b` at the head of `t` (greedy, backtracking on
the final boundary). -/
def upiTailLen (t : List Char) : Option Nat :=
  bestBdry (t.takeWhile isWordDot).length t

/-- After the first local character of the payment-handle pattern: consume
further `[\w.]` characters, then `@`, then the domain tail.  Returns the
number of characters consumed. -/
def upiAfterLocal : List Char → Option Nat
  | [] => none
  | c :: rest =>
    if c = '@' then (upiTailLen rest).map (· + 1)
    else if isWordDot c then (upiAfterLocal rest).map (· + 1) else none

/-- Match length of the payment-handle pattern `\b[\w.]+@[\w.]+\b` at the
current position.  The second alternative `\b\d{10}@[a-zA-Z]+\b` is
subsumed by the first (every string it accepts is accepted by the first
alternative with the same starting boundary), so it never contributes. -/
def upiLen (prev : Option Char) (s : List Char) : Option Nat :=
  match s with
  | [] => none
  | c :: rest =>
    if bdry prev (some c) && isWordDot c then
      (upiAfterLocal rest).map (· + 1)
    else none

/-- Greedy search as in `bestBdry` but with the floor `2 ≤ k` required by
a `{2,}` counted group. -/
def bestBdry2 : Nat → List Char → Option Nat
  | 0, _ => none
  | 1, _ => none
  | k + 2, t => if bdryOkAt t (k + 2) then some (k + 2) else bestBdry2 (k + 1) t

/-- Match length of `[A-Z|a-z]{2,}\b` at the head of `t`. -/
def tldLen (t : List Char) : Option Nat :=
  bestBdry2 (t.takeWhile isTldCh).length t

/-- Domain part of the email pattern: `[A-Za-z0-9.-]+\.[A-Z|a-z]{2,}\b`.
The argument of `emailDomBest` is the candidate length of the `+` group,
tried greedily from the longest down; the following character must be the
literal dot. -/
def emailDomBest : Nat → List Char → Option Nat
  | 0, _ => none
  | k + 1, u =>
    match u.drop (k + 1) with
    | '.' :: t =>
      match tldLen t with
      | some j => some ((k + 1) + 1 + j)
      | none => emailDomBest k u
    | _ => emailDomBest k u

/-- Match length of the email pattern's domain at the head of `u`. -/
def emailDomLen (u : List Char) : Option Nat :=
  emailDomBest (u.takeWhile isDomCh).length u

/-- After the first local character of the email pattern: consume further
local characters, then `@`, then the domain. -/
def emailAfterLocal : List Char → Option Nat
  | [] => none
  | c :: rest =>
    if c = '@' then (emailDomLen rest).map (· + 1)
    else if isLocalCh c then (emailAfterLocal rest).map (· + 1) else none

/-- Match length of the email pattern at the current position. -/
def emailLen (prev : Option Char) (s : List Char) : Option Nat :=
  match s with
  | [] => none
  | c :: rest =>
    if bdry prev (some c) && isLocalCh c then
      (emailAfterLocal rest).map (· + 1)
    else none

/-! ## The structured detector (`FlixkartPIIDetector`) -/

/-- `is_standalone_pii` (source lines 21–39): a single field/value is PII
on its own.  `not value` is emptiness for text values; patterns are
applied to the trimmed value, anchored at its start (`re.match`). -/
def is_standalone_pii (field : String) (value : List Char) : Bool :=
  if value = [] ∨ (strip value).length < 3 then false
  else
    let vs := strip value
    if field = "phone" ∨ (phoneLen none vs).isSome = true then true
    else if field = "aadhar" ∨ (aadharLen none vs).isSome = true then true
    else if field = "passport" ∨ (passportLen none vs).isSome = true then true
    else if field = "upi_id" ∨ (upiLen none vs).isSome = true then true
    else false

/-- `is_valid_name` (source lines 41–53).  Each whitespace-separated word
must fully match `[A-Za-z.]+`; words produced by `split()` contain no
newline, so the host `$` anchor coincides with end-of-word. -/
def is_valid_name (name_str : List Char) : Bool :=
  if name_str = [] ∨ (strip name_str).length < 2 then false
  else
    let words := pySplit (strip name_str)
    if words.length < 2 then false
    else words.all (fun w => !w.isEmpty && w.all (fun c => c.isAlpha || c == '.'))

/-- `is_valid_email` (source lines 55–56): the email pattern anchored at
the start of the (untrimmed) value. -/
def is_valid_email (email_str : List Char) : Bool :=
  (emailLen none email_str).isSome

/-- `is_valid_address` (source lines 58–62).  Note that the length guard
uses the raw, untrimmed length of the value. -/
def is_valid_address (addr_str : List Char) : Bool :=
  if addr_str = [] ∨ addr_str.length < 10 then false
  else addr_str.contains ',' &&
    (addr_str.any Char.isDigit || decide (4 ≤ (pySplit addr_str).length))

/-- Loop body of `has_combinatorial_pii` (source lines 64–82): walk the
record accumulating category labels. Only the `name_parts` label is
deduplicated; the `device_info` label is appended once per qualifying
field. -/
def piiLoop (acc : List String) : List (String × List Char) → List String
  | [] => acc
  | (f, v) :: rest =>
    if v = [] then piiLoop acc rest
    else if f = "name" ∧ is_valid_name v = true then piiLoop (acc ++ ["name"]) rest
    else if (f = "first_name" ∨ f = "last_name") ∧ 2 ≤ (strip v).length then
      if "name_parts" ∈ acc then piiLoop acc rest
      else piiLoop (acc ++ ["name_parts"]) rest
    else if f = "email" ∧ is_valid_email v = true then piiLoop (acc ++ ["email"]) rest
    else if f = "address" ∧ is_valid_address v = true then piiLoop (acc ++ ["address"]) rest
    else if (f = "device_id" ∨ f = "ip_address") ∧ 5 ≤ (strip v).length then
      piiLoop (acc ++ ["device_info"]) rest
    else piiLoop acc rest

/-- `has_combinatorial_pii` (source lines 64–83). -/
def has_combinatorial_pii (data : List (String × List Char)) : Bool :=
  2 ≤ (piiLoop [] data).length

/-- The `name` category predicate of the combinatorial loop's first branch. -/
def qName (p : String × List Char) : Bool :=
  decide (p.2 ≠ [] ∧ p.1 = "name" ∧ is_valid_name p.2 = true)

/-- The `name_parts` category predicate (second branch). -/
def qNamePart (p : String × List Char) : Bool :=
  decide (p.2 ≠ [] ∧ (p.1 = "first_name" ∨ p.1 = "last_name") ∧ 2 ≤ (strip p.2).length)

/-- The `email` category predicate (third branch). -/
def qEmail (p : String × List Char) : Bool :=
  decide (p.2 ≠ [] ∧ p.1 = "email" ∧ is_valid_email p.2 = true)

/-- The `address` category predicate (fourth branch). -/
def qAddress (p : String × List Char) : Bool :=
  decide (p.2 ≠ [] ∧ p.1 = "address" ∧ is_valid_address p.2 = true)

/-- The `device_info` category predicate (fifth branch). -/
def qDevice (p : String × List Char) : Bool :=
  decide (p.2 ≠ [] ∧ (p.1 = "device_id" ∨ p.1 = "ip_address") ∧ 5 ≤ (strip p.2).length)

/-- Declarative count of the category labels collected by
`has_combinatorial_pii`: the `name_parts` label is counted at most once,
every other label once per qualifying field (for `name`, `email` and
`address` the field name is unique, so only `device_info` can be
contributed twice). -/
def categoryCount (data : List (String × List Char)) : Nat :=
  data.countP qName + (if data.any qNamePart then 1 else 0) +
    data.countP qEmail + data.countP qAddress + data.countP qDevice

/-- `mask_value` (source lines 112–143). -/
def mask_value (field : String) (value : List Char) : List Char :=
  let vs := strip value
  if field = "phone" ∨ (phoneLen none vs).isSome = true then
    if vs.length = 10 then vs.take 2 ++ List.replicate 6 'X' ++ vs.drop 8
    else vs.take 2 ++ List.replicate (vs.length - 4) 'X' ++ vs.drop (vs.length - 2)
  else if field = "aadhar" then
    let clean := vs.filter Char.isDigit
    if clean.length = 12 then clean.take 2 ++ List.replicate 8 'X' ++ clean.drop 10
    else redactToken
  else if field = "name" ∨ field = "first_name" ∨ field = "last_name" then
    joinSpace ((pySplit vs).map (fun w =>
      if 1 < w.length then w.take 1 ++ List.replicate (w.length - 1) 'X' else ['X']))
  else if field = "email" then
    if vs.contains '@' then
      let user := vs.takeWhile (fun c => c != '@')
      let domain := vs.drop (user.length + 1)
      (if 1 < user.length then user.take 1 ++ List.replicate (user.length - 1) 'X'
       else ['X']) ++ '@' :: domain
    else redactToken
  else redactToken

/-- Host-dictionary assignment `m[k] = v` on an association list: overwrite
in place when the key is present, append otherwise. -/
def setKV {κ ν : Type} [DecidableEq κ] (m : List (κ × ν)) (k : κ) (v : ν) :
    List (κ × ν) :=
  if m.any (fun p => decide (p.1 = k)) then
    m.map (fun p => if p.1 = k then (k, v) else p)
  else m ++ [(k, v)]

/-- `combinatorial_fields` (source line 19). -/
def combinatorial_fields : List String :=
  ["name", "first_name", "last_name", "email", "address", "device_id", "ip_address"]

/-- Pass 1 of `detect_pii_in_record` (source lines 90–93): mask every
standalone-PII field. -/
def step1Fields (data : List (String × List Char)) : List (String × List Char) :=
  data.foldl
    (fun m p => if is_standalone_pii p.1 p.2 then setKV m p.1 (mask_value p.1 p.2) else m)
    []

/-- Loop body of pass 2 of `detect_pii_in_record` (source lines 97–108):
a combinatorial-eligible field with a non-empty value that is not already
masked is re-validated against its category predicate and masked. -/
def step2Update (m : List (String × List Char)) (p : String × List Char) :
    List (String × List Char) :=
  if p.1 ∈ combinatorial_fields ∧ p.2 ≠ [] ∧ ¬ m.any (fun q => decide (q.1 = p.1)) then
    if p.1 = "name" ∧ is_valid_name p.2 = true then setKV m p.1 (mask_value p.1 p.2)
    else if (p.1 = "first_name" ∨ p.1 = "last_name") ∧ 2 ≤ (strip p.2).length then
      setKV m p.1 (mask_value p.1 p.2)
    else if p.1 = "email" ∧ is_valid_email p.2 = true then setKV m p.1 (mask_value p.1 p.2)
    else if p.1 = "address" ∧ is_valid_address p.2 = true then setKV m p.1 (mask_value p.1 p.2)
    else if p.1 = "device_id" ∨ p.1 = "ip_address" then setKV m p.1 redactToken
    else m
  else m

/-- Pass 2 of `detect_pii_in_record` (source lines 97–108): when the
combinatorial test fired, mask every combinatorial-eligible field that is
not already masked and passes its category predicate. -/
def step2Fields (data : List (String × List Char)) (m0 : List (String × List Char)) :
    List (String × List Char) :=
  data.foldl step2Update m0

/-- `detect_pii_in_record` (source lines 85–110). -/
def detect_pii_in_record (data : List (String × List Char)) :
    Bool × List (String × List Char) :=
  let m1 := step1Fields data
  let hasS := data.any (fun p => is_standalone_pii p.1 p.2)
  let hasC := has_combinatorial_pii data
  (hasS || hasC, if hasC then step2Fields data m1 else m1)

/-- The structured re-serialization step of `process_csv_file` (source
lines 258–261): copy the record and overwrite the value of every field
that the masked-field mapping mentions and that the record contains. -/
def apply_masks (data piiFields : List (String × List Char)) :
    List (String × List Char) :=
  piiFields.foldl
    (fun red p => if red.any (fun q => decide (q.1 = p.1)) then setKV red p.1 p.2 else red)
    data

/-! ## Malformed-payload repair (`fix_malformed_json`, source lines 145–154) -/

/-- `Python str.rstrip(c)`: remove every trailing occurrence of `c`. -/
def pyRstrip (c : Char) (s : List Char) : List Char :=
  (s.reverse.dropWhile (fun d => d == c)).reverse

/-- Matcher for `:\s*([a-zA-Z_][a-zA-Z0-9_]*)\s*([,}])` at the current
position, returning the consumed length and the replacement text
`: "token"delim`.  The token run and both whitespace runs are maximal;
no shorter choice can succeed, so the match is deterministic. -/
def matchBareWord (s : List Char) : Option (Nat × List Char) :=
  match s with
  | ':' :: r1 =>
    let w1 := r1.takeWhile isSpaceCh
    match r1.drop w1.length with
    | c :: r3 =>
      if c.isAlpha || c == '_' then
        let tkrest := r3.takeWhile (fun d => d.isAlphanum || d == '_')
        let tok := c :: tkrest
        let r4 := r3.drop tkrest.length
        let w2 := r4.takeWhile isSpaceCh
        match r4.drop w2.length with
        | d :: _ =>
          if d == ',' || d == '}' then
            some (1 + w1.length + tok.length + w2.length + 1,
              ':' :: ' ' :: '"' :: (tok ++ ['"', d]))
          else none
        | [] => none
      else none
    | [] => none
  | _ => none

/-- Matcher for `:\s*(\d{4}-\d{2}-\d{2})\s*([,}])` at the current
position, returning the consumed length and the replacement
`: "date"delim`. -/
def matchBareDate (s : List Char) : Option (Nat × List Char) :=
  match s with
  | ':' :: r1 =>
    let w1 := r1.takeWhile isSpaceCh
    match r1.drop w1.length with
    | a :: b :: c :: d :: '-' :: e :: f :: '-' :: g :: h :: r3 =>
      if a.isDigit && b.isDigit && c.isDigit && d.isDigit && e.isDigit &&
          f.isDigit && g.isDigit && h.isDigit then
        let tok := [a, b, c, d, '-', e, f, '-', g, h]
        let w2 := r3.takeWhile isSpaceCh
        match r3.drop w2.length with
        | d2 :: _ =>
          if d2 == ',' || d2 == '}' then
            some (1 + w1.length + 10 + w2.length + 1,
              ':' :: ' ' :: '"' :: (tok ++ ['"', d2]))
          else none
        | [] => none
      else none
    | _ => none
  | _ => none

/-- `re.sub` scan for a matcher that supplies its own replacement: copy
characters until a match starts, emit the replacement, resume after the
match.  The matchers above never consume zero characters, so the fuel
`s.length` suffices and the zero-length guard is unreachable. -/
def scanSubF (mfun : List Char → Option (Nat × List Char)) :
    Nat → List Char → List Char
  | 0, s => s
  | _ + 1, [] => []
  | fuel + 1, c :: rest =>
    match mfun (c :: rest) with
    | some (n + 1, r) => r ++ scanSubF mfun fuel ((c :: rest).drop (n + 1))
    | _ => c :: scanSubF mfun fuel rest

/-- `fix_malformed_json` (source lines 145–154): trim, drop trailing stray
quotes, then quote bare word values and bare date values. -/
def fix_malformed_json (json_str : List Char) : List Char :=
  let f1 := pyRstrip '"' (strip json_str)
  let f2 := scanSubF matchBareWord f1.length f1
  scanSubF matchBareDate f2.length f2

/-! ## Strict JSON decoding

The caller retries `json.loads` on the repaired text.  The decoder is
modelled for the fragment the claims need: a single object whose keys
and values are escape-free strings.  Anything outside this fragment is
rejected with `none`, exactly as the strict decoder rejects every input
whose object keys are not quoted strings. -/

/-- JSON insignificant whitespace. -/
def isJsonWs (c : Char) : Bool :=
  c == ' ' || c == '\t' || c == '\n' || c == '\r'

/-- Scan the body of a JSON string after the opening quote: plain,
escape-free characters up to the closing quote. -/
def jsonStrBody : List Char → Option (List Char × List Char)
  | [] => none
  | '"' :: r => some ([], r)
  | '\\' :: _ => none
  | c :: r =>
    if c.toNat < 32 then none
    else (jsonStrBody r).map (fun p => (c :: p.1, p.2))

/-- Parse a JSON string literal at the head of the input. -/
def jsonString : List Char → Option (List Char × List Char)
  | '"' :: r => jsonStrBody r
  | _ => none

/-- Parse the members of a JSON object, positioned at a key. -/
def jsonMembers : Nat → List Char → Option (List (List Char × List Char) × List Char)
  | 0, _ => none
  | fuel + 1, s => do
    let (k, r1) ← jsonString s
    match (r1.dropWhile isJsonWs) with
    | ':' :: r2 => do
      let (v, r3) ← jsonString (r2.dropWhile isJsonWs)
      match (r3.dropWhile isJsonWs) with
      | ',' :: r4 => do
        let (items, rest) ← jsonMembers fuel (r4.dropWhile isJsonWs)
        pure ((k, v) :: items, rest)
      | '}' :: r4 => pure ([(k, v)], r4)
      | _ => none
    | _ => none

/-- Decode a complete JSON object of string values; later duplicate keys
overwrite earlier ones as in the host decoder. -/
def jsonDecode (s : List Char) : Option (List (List Char × List Char)) :=
  match s.dropWhile isJsonWs with
  | '{' :: r1 =>
    match r1.dropWhile isJsonWs with
    | '}' :: r2 => if (r2.dropWhile isJsonWs) = [] then some [] else none
    | r2 => do
      let (items, rest) ← jsonMembers s.length r2
      if (rest.dropWhile isJsonWs) = [] then
        pure (items.foldl (fun m p => setKV m p.1 p.2) [])
      else none
  | _ => none

/-! ## Raw-text fallback (source lines 156–208) -/

/-- `re.search` driver: try the matcher at every position, threading the
previous character for the `\b` assertions. -/
def searchLen (mlen : Option Char → List Char → Option Nat) :
    Option Char → List Char → Bool
  | prev, s =>
    (mlen prev s).isSome ||
      match s with
      | [] => false
      | c :: rest => searchLen mlen (some c) rest

/-- `re.search` from the start of the text. -/
def reSearch (mlen : Option Char → List Char → Option Nat) (s : List Char) : Bool :=
  searchLen mlen none s

/-- `detect_pii_in_raw_string` (source lines 156–174): any of the five
patterns found anywhere in the text. -/
def detect_pii_in_raw_string (raw : List Char) : Bool :=
  reSearch phoneLen raw || reSearch aadharLen raw || reSearch passportLen raw ||
    reSearch upiLen raw || reSearch emailLen raw

/-- `re.finditer`: collect the non-overlapping matches left to right, each
of the length preferred by the engine.  The patterns never match the
empty string, so the zero-length guard is unreachable and the fuel
`s.length` suffices. -/
def scanIter (mlen : Option Char → List Char → Option Nat) :
    Nat → Option Char → List Char → List (List Char)
  | 0, _, _ => []
  | _ + 1, _, [] => []
  | fuel + 1, prev, c :: rest =>
    match mlen prev (c :: rest) with
    | some (n + 1) =>
      (c :: rest).take (n + 1) ::
        scanIter mlen fuel (((c :: rest).take (n + 1)).getLast?) ((c :: rest).drop (n + 1))
    | some 0 => []
    | none => scanIter mlen fuel (some c) rest

/-- `re.finditer` over a whole text, returning the matched substrings. -/
def finditer (mlen : Option Char → List Char → Option Nat) (s : List Char) :
    List (List Char) :=
  scanIter mlen s.length none s

/-- Whether `t` is a prefix of `s`. -/
def leadsWith : List Char → List Char → Bool
  | [], _ => true
  | _ :: _, [] => false
  | a :: t, b :: r => a == b && leadsWith t r

/-- `Python str.replace`: replace every occurrence of `target` (nonempty
in every use — matched substrings are never empty) left to right. -/
def pyReplace (fuel : Nat) (s target repl : List Char) : List Char :=
  match fuel, s with
  | 0, s => s
  | _ + 1, [] => []
  | fuel + 1, c :: rest =>
    if leadsWith target (c :: rest) && !target.isEmpty then
      repl ++ pyReplace fuel ((c :: rest).drop target.length) target repl
    else c :: pyReplace fuel rest target repl

/-- `re.sub` with a constant replacement: copy until a match, emit the
replacement, resume after the matched characters. -/
def scanSub (mlen : Option Char → List Char → Option Nat) (repl : List Char) :
    Nat → Option Char → List Char → List Char
  | 0, _, s => s
  | _ + 1, _, [] => []
  | fuel + 1, prev, c :: rest =>
    match mlen prev (c :: rest) with
    | some (n + 1) =>
      repl ++ scanSub mlen repl fuel (((c :: rest).take (n + 1)).getLast?)
        ((c :: rest).drop (n + 1))
    | some 0 => c :: rest
    | none => c :: scanSub mlen repl fuel (some c) rest

/-- `re.sub` over a whole text. -/
def reSub (mlen : Option Char → List Char → Option Nat) (repl s : List Char) :
    List Char :=
  scanSub mlen repl s.length none s

/-- The phone mask applied to a raw match (source lines 184–188). -/
def phoneMaskRaw (p : List Char) : List Char :=
  if p.length = 10 then p.take 2 ++ List.replicate 6 'X' ++ p.drop 8
  else p.take 2 ++ List.replicate (p.length - 4) 'X' ++ p.drop (p.length - 2)

/-- `redact_pii_in_raw_string` (source lines 176–208): replace phone
matches via `str.replace`, national-id matches via `str.replace` when
exactly 12 digits remain after digit-stripping, then substitute the
passport, payment-handle and email patterns with the generic token. -/
def redact_pii_in_raw_string (raw : List Char) : List Char :=
  let r1 := (finditer phoneLen raw).foldl
    (fun r m => pyReplace r.length r m (phoneMaskRaw m)) raw
  let r2 := (finditer aadharLen raw).foldl
    (fun r m =>
      let clean := m.filter Char.isDigit
      if clean.length = 12 then
        pyReplace r.length r m (clean.take 2 ++ List.replicate 8 'X' ++ clean.drop 10)
      else r)
    r1
  let r3 := reSub passportLen redactToken r2
  let r4 := reSub upiLen redactToken r3
  reSub emailLen redactToken r4

/-! ## Helper lemmas -/

lemma isSpaceCh_cases {c : Char} (h : isSpaceCh c = true) :
    c = ' ' ∨ c = '\t' ∨ c = '\n' ∨ c = '\r' ∨ c = '\x0b' ∨ c = '\x0c' := by
  simp only [isSpaceCh, Bool.or_eq_true, beq_iff_eq] at h
  tauto

lemma digit_not_space {c : Char} (h : c.isDigit = true) : isSpaceCh c = false := by
  by_contra hn
  rcases isSpaceCh_cases (by simpa using hn) with rfl | rfl | rfl | rfl | rfl | rfl <;>
    simp at h

lemma word_not_space {c : Char} (h : isWordCh c = true) : isSpaceCh c = false := by
  by_contra hn
  rcases isSpaceCh_cases (by simpa using hn) with rfl | rfl | rfl | rfl | rfl | rfl <;>
    simp [isWordCh] at h

lemma digit_word {c : Char} (h : c.isDigit = true) : isWordCh c = true := by
  simp [isWordCh, Char.isAlphanum, h]

lemma takeWhile_all {p : Char → Bool} {l : List Char} (h : l.all p = true) :
    l.takeWhile p = l := by
  induction l with
  | nil => rfl
  | cons c t ih =>
    simp only [List.all_cons, Bool.and_eq_true] at h
    simp [List.takeWhile_cons, h.1, ih h.2]

lemma dropWhile_head {p : Char → Bool} {l : List Char}
    (h : ∀ c, l.head? = some c → p c = false) : l.dropWhile p = l := by
  cases l with
  | nil => rfl
  | cons c t => simp [List.dropWhile_cons, h c rfl]

lemma strip_eq_self {v : List Char}
    (h1 : ∀ c, v.head? = some c → isSpaceCh c = false)
    (h2 : ∀ c, v.getLast? = some c → isSpaceCh c = false) : strip v = v := by
  unfold strip
  rw [dropWhile_head h1, dropWhile_head (by simpa [List.head?_reverse] using h2),
    List.reverse_reverse]

/-! ## Claim theorems -/

/-- Claim C4, counterexample: the address validity test accepts a value
whose untrimmed length is 10 but whose trimmed length is 5; the claim
demands rejection whenever the trimmed length is below 10. -/
theorem claim4_counterexample :
    is_valid_address ("  1,2 3   ".toList) = true ∧
      (strip ("  1,2 3   ".toList)).length < 10 := by decide

/-- Claim C4 (amended: the length guard uses the raw, untrimmed length):
the address validity test rejects whenever the value is missing or its
untrimmed length is below 10, and otherwise accepts iff the text has a
comma and (a digit or at least 4 whitespace-separated tokens). -/
theorem claim4_address_validity (v : List Char) :
    ((v = [] ∨ v.length < 10) → is_valid_address v = false) ∧
    (¬(v = [] ∨ v.length < 10) →
      (is_valid_address v = true ↔
        ',' ∈ v ∧ (v.any Char.isDigit = true ∨ 4 ≤ (pySplit v).length))) := by
  constructor
  · intro h
    simp [is_valid_address, h]
  · intro h
    simp only [is_valid_address, if_neg h, Bool.and_eq_true, Bool.or_eq_true,
      List.elem_iff, decide_eq_true_eq, List.contains]

/-- Claim C4 witness. -/
theorem claim4_witness : is_valid_address ("123 Main St, Springfield".toList) = true := by
  exact ((claim4_address_validity ("123 Main St, Springfield".toList)).2
    (by decide)).mpr (by decide)

set_option maxHeartbeats 1000000 in
/-- Claim C5: the standalone PII test rejects empty or short (trimmed
length below 3) values, and otherwise fires iff the field name is one of
`phone`, `aadhar`, `passport`, `upi_id` or one of the four pattern
recognizers matches anchored at the start of the trimmed value. -/
theorem claim5_standalone (f : String) (v : List Char) :
    ((v = [] ∨ (strip v).length < 3) → is_standalone_pii f v = false) ∧
    (¬(v = [] ∨ (strip v).length < 3) →
      (is_standalone_pii f v = true ↔
        f = "phone" ∨ f = "aadhar" ∨ f = "passport" ∨ f = "upi_id" ∨
        (phoneLen none (strip v)).isSome = true ∨
        (aadharLen none (strip v)).isSome = true ∨
        (passportLen none (strip v)).isSome = true ∨
        (upiLen none (strip v)).isSome = true)) := by
  constructor
  · intro h
    simp [is_standalone_pii, h]
  · intro h
    simp only [is_standalone_pii, if_neg h]
    split_ifs with h1 h2 h3 h4
    · exact ⟨fun _ => by tauto, fun _ => rfl⟩
    · exact ⟨fun _ => by tauto, fun _ => rfl⟩
    · exact ⟨fun _ => by tauto, fun _ => rfl⟩
    · exact ⟨fun _ => by tauto, fun _ => rfl⟩
    · constructor
      · intro hf; exact absurd hf (by simp)
      · intro hr; exact absurd hr (by tauto)

/-- Claim C5 witness. -/
theorem claim5_witness : is_standalone_pii "other" ("hello".toList) = false := by
  have h := (claim5_standalone "other" ("hello".toList)).2 (by decide)
  rw [Bool.eq_false_iff, ne_eq, h]
  decide

/-- Claim C7: on a value of exactly ten digits, the standalone test with
field `phone` fires, and the mask keeps the first and last two characters
and replaces the middle six with `X`. -/
theorem claim7_phone (v : List Char) (hlen : v.length = 10)
    (hd : v.all Char.isDigit = true) :
    is_standalone_pii "phone" v = true ∧
    mask_value "phone" v = v.take 2 ++ List.replicate 6 'X' ++ v.drop 8 := by
  have hne : v ≠ [] := by intro h; rw [h] at hlen; simp at hlen
  have hall : ∀ c ∈ v, c.isDigit = true := by simpa using hd
  have hstrip : strip v = v := strip_eq_self
    (fun c hc => digit_not_space (hall c (List.mem_of_mem_head? (by simp [hc]))))
    (fun c hc => digit_not_space (hall c (List.mem_of_mem_getLast? (by simp [hc]))))
  constructor
  · simp [is_standalone_pii, hstrip, hlen, hne]
  · simp [mask_value, hstrip, hlen]

/-- Claim C7 witness. -/
theorem claim7_witness :
    is_standalone_pii "phone" ("9876543210".toList) = true ∧
    mask_value "phone" ("9876543210".toList) = "98XXXXXX10".toList := by
  have h := claim7_phone ("9876543210".toList) (by decide) (by decide)
  exact ⟨h.1, h.2.trans (by decide)⟩

/-- Claim C3: evaluation of the repair on the spec's flagship input.  The
repair quotes the two bare values but leaves the keys `name` and `date`
unquoted, so the repaired text is still rejected by the strict JSON
decoder (which the third conjunct shows accepting the properly quoted
form of the same object). -/
theorem claim3_repair_fails :
    fix_malformed_json ("\x7bname: John, date: 2024-01-05\x7d".toList) =
      "\x7bname: \"John\", date: \"2024-01-05\"\x7d".toList ∧
    jsonDecode (fix_malformed_json ("\x7bname: John, date: 2024-01-05\x7d".toList)) = none ∧
    jsonDecode ("\x7b\"name\": \"John\", \"date\": \"2024-01-05\"\x7d".toList) =
      some [("name".toList, "John".toList), ("date".toList, "2024-01-05".toList)] := by
  decide

/-- Claim C1, counterexample: a record whose only qualifying fields are
`device_id` and `ip_address` (both of trimmed length at least 5) is
classified as combinatorial PII, because the loop appends the
`device_info` label once per qualifying field; the claim says such a
record yields false. -/
theorem claim1_counterexample :
    has_combinatorial_pii
      [("device_id", "abcde".toList), ("ip_address", "12345".toList)] = true := by
  decide

/-- Claim C2, counterexample: the value `123456789012` under the field
name `id` is detected as standalone PII via the national-id pattern, yet
the mask is the generic redaction token rather than the claimed
first-2, eight-X, last-2 shape. -/
theorem claim2_counterexample :
    is_standalone_pii "id" ("123456789012".toList) = true ∧
    mask_value "id" ("123456789012".toList) = redactToken ∧
    redactToken ≠ "12XXXXXXXX12".toList := by
  decide

lemma wordDot_ne_at {c : Char} (h : isWordDot c = true) : c ≠ '@' := by
  intro hc
  rw [hc] at h
  simp [isWordDot, isWordCh] at h

lemma upiTailLen_concat (b : List Char) (y : Char) (hb : b.all isWordDot = true)
    (hy : isWordCh y = true) : upiTailLen (b ++ [y]) = some (b.length + 1) := by
  have hall : (b ++ [y]).all isWordDot = true := by
    simp only [List.all_append, List.all_cons, List.all_nil, Bool.and_eq_true]
    exact ⟨hb, by simp [isWordDot, hy], trivial⟩
  have hlen : (b ++ [y]).length = b.length + 1 := by simp
  have hb1 : bdryOkAt (b ++ [y]) (b.length + 1) = true := by
    unfold bdryOkAt
    rw [← hlen, List.take_length, List.drop_length, List.getLast?_concat]
    simp [bdry, wOpt, hy]
  unfold upiTailLen
  rw [takeWhile_all hall, hlen]
  simp [bestBdry, hb1]

lemma upiAfterLocal_shape (a b : List Char) (y : Char) (ha : a.all isWordDot = true)
    (hb : b.all isWordDot = true) (hy : isWordCh y = true) :
    upiAfterLocal (a ++ '@' :: (b ++ [y])) = some (a.length + b.length + 2) := by
  induction a with
  | nil =>
    simp only [List.nil_append, upiAfterLocal, if_pos rfl, upiTailLen_concat b y hb hy,
      Option.map_some]
    simp
  | cons c a' ih =>
    simp only [List.all_cons, Bool.and_eq_true] at ha
    rw [List.cons_append, upiAfterLocal, if_neg (wordDot_ne_at ha.1), if_pos ha.1,
      ih ha.2]
    simp only [Option.map_some', List.length_cons, Option.some.injEq]
    omega

/-- Claim C10: any value whose trimmed form has length at least 3 and
matches the payment-handle recognizer at its start is standalone PII
under every field name; every email-shaped value (word-or-dot characters
around a single `@`, starting and ending with a word character) matches
that recognizer, hence is standalone PII in any field. -/
theorem claim10_email_standalone :
    (∀ (f : String) (v : List Char), 3 ≤ (strip v).length →
      (upiLen none (strip v)).isSome = true → is_standalone_pii f v = true) ∧
    (∀ (x : Char) (a b : List Char) (y : Char), isWordCh x = true →
      a.all isWordDot = true → b.all isWordDot = true → isWordCh y = true →
      (upiLen none (x :: (a ++ '@' :: (b ++ [y])))).isSome = true) ∧
    (∀ (f : String) (x : Char) (a b : List Char) (y : Char), isWordCh x = true →
      a.all isWordDot = true → b.all isWordDot = true → isWordCh y = true →
      is_standalone_pii f (x :: (a ++ '@' :: (b ++ [y]))) = true) := by
  have p1 : ∀ (f : String) (v : List Char), 3 ≤ (strip v).length →
      (upiLen none (strip v)).isSome = true → is_standalone_pii f v = true := by
    intro f v h3 hupi
    have hne : v ≠ [] := by
      intro h
      rw [h] at h3
      simp [strip] at h3
    have hcond : ¬(v = [] ∨ (strip v).length < 3) := by
      push_neg
      exact ⟨hne, by omega⟩
    simp only [is_standalone_pii, if_neg hcond]
    split_ifs with h1 h2 h3' h4
    · rfl
    · rfl
    · rfl
    · rfl
    · exact absurd (Or.inr hupi) h4
  have p2 : ∀ (x : Char) (a b : List Char) (y : Char), isWordCh x = true →
      a.all isWordDot = true → b.all isWordDot = true → isWordCh y = true →
      (upiLen none (x :: (a ++ '@' :: (b ++ [y])))).isSome = true := by
    intro x a b y hx ha hb hy
    simp only [upiLen, bdry, wOpt, upiAfterLocal_shape a b y ha hb hy, hx,
      isWordDot, Bool.or_eq_true]
    simp
  refine ⟨p1, p2, ?_⟩
  intro f x a b y hx ha hb hy
  have hv : x :: (a ++ '@' :: (b ++ [y])) = (x :: a ++ '@' :: b) ++ [y] := by simp
  have hstrip : strip (x :: (a ++ '@' :: (b ++ [y]))) = x :: (a ++ '@' :: (b ++ [y])) :=
    strip_eq_self
      (fun c hc => by
        simp only [List.head?_cons, Option.some.injEq] at hc
        rw [← hc]
        exact word_not_space hx)
      (fun c hc => by
        rw [hv, List.getLast?_concat, Option.some.injEq] at hc
        rw [← hc]
        exact word_not_space hy)
  have hlen : 3 ≤ (strip (x :: (a ++ '@' :: (b ++ [y])))).length := by
    rw [hstrip]
    simp
    omega
  exact p1 f _ hlen (by rw [hstrip]; exact p2 x a b y hx ha hb hy)

/-- Claim C10 witness. -/
theorem claim10_witness :
    is_standalone_pii "notes" ('a' :: (['.', 'b'] ++ '@' :: (['c', '.'] ++ ['d']))) = true := by
  exact claim10_email_standalone.2.2 "notes" 'a' ['.', 'b'] ['c', '.'] 'd'
    (by decide) (by decide) (by decide) (by decide)


lemma list_len4 : ∀ {l : List Char}, l.length = 4 → ∃ p q r s, l = [p, q, r, s] := by
  intro l h
  match l with
  | [p, q, r, s] => exact ⟨p, q, r, s, rfl⟩
  | [] | [_] | [_, _] | [_, _, _] => simp at h
  | _ :: _ :: _ :: _ :: _ :: _ => simp at h

/-- Claim C2 (amended: the 2-X8-2 national-id mask applies when the field
is named `aadhar`): for every 12-digit value, optionally grouped 4-4-4
with spaces or hyphens, the field `aadhar` is standalone PII and its mask
strips the separators and keeps the first two and last two digits around
eight `X`. -/
theorem claim2_aadhar_mask (a s1 b s2 c : List Char)
    (ha4 : a.length = 4) (had : a.all Char.isDigit = true)
    (hb4 : b.length = 4) (hbd : b.all Char.isDigit = true)
    (hc4 : c.length = 4) (hcd : c.all Char.isDigit = true)
    (hs1 : s1 = [] ∨ s1 = [' '] ∨ s1 = ['-'])
    (hs2 : s2 = [] ∨ s2 = [' '] ∨ s2 = ['-']) :
    is_standalone_pii "aadhar" (a ++ s1 ++ b ++ s2 ++ c) = true ∧
    mask_value "aadhar" (a ++ s1 ++ b ++ s2 ++ c) =
      a.take 2 ++ List.replicate 8 'X' ++ c.drop 2 := by
  obtain ⟨a0, a1, a2, a3, rfl⟩ := list_len4 ha4
  obtain ⟨b0, b1, b2, b3, rfl⟩ := list_len4 hb4
  obtain ⟨c0, c1, c2, c3, rfl⟩ := list_len4 hc4
  simp only [List.all_cons, List.all_nil, Bool.and_eq_true, and_true] at had hbd hcd
  obtain ⟨ha0, ha1, ha2, ha3⟩ := had
  obtain ⟨hb0, hb1, hb2, hb3⟩ := hbd
  obtain ⟨hc0, hc1, hc2, hc3⟩ := hcd
  rcases hs1 with rfl | rfl | rfl <;> rcases hs2 with rfl | rfl | rfl <;>
    exact ⟨by simp [is_standalone_pii, strip, phoneLen, wOpt, isWordCh, Char.isAlphanum,
        digit_not_space ha0, digit_not_space hc3, ha0, ha1, ha2, ha3, hb0, hb1, hb2, hb3,
        hc0, hc1, hc2, hc3],
      by simp [mask_value, strip, phoneLen, wOpt, isWordCh, Char.isAlphanum,
        digit_not_space ha0, digit_not_space hc3, ha0, ha1, ha2, ha3, hb0, hb1, hb2, hb3,
        hc0, hc1, hc2, hc3]⟩

/-- Claim C2 witness. -/
theorem claim2_witness :
    is_standalone_pii "aadhar"
      (['1', '2', '3', '4'] ++ [' '] ++ ['5', '6', '7', '8'] ++ [' '] ++ ['9', '0', '1', '2'])
      = true ∧
    mask_value "aadhar"
      (['1', '2', '3', '4'] ++ [' '] ++ ['5', '6', '7', '8'] ++ [' '] ++ ['9', '0', '1', '2'])
      = ['1', '2', '3', '4'].take 2 ++ List.replicate 8 'X' ++ ['9', '0', '1', '2'].drop 2 := by
  exact claim2_aadhar_mask ['1', '2', '3', '4'] [' '] ['5', '6', '7', '8'] [' ']
    ['9', '0', '1', '2'] (by decide) (by decide) (by decide) (by decide) (by decide)
    (by decide) (Or.inr (Or.inl rfl)) (Or.inr (Or.inl rfl))

set_option maxHeartbeats 1000000 in
lemma piiLoop_length (data : List (String × List Char)) :
    ∀ acc, (piiLoop acc data).length =
      acc.length + data.countP qName +
        (if "name_parts" ∈ acc then 0 else if data.any qNamePart then 1 else 0) +
        data.countP qEmail + data.countP qAddress + data.countP qDevice := by
  induction data with
  | nil => intro acc; simp [piiLoop]
  | cons p rest ih =>
    intro acc
    obtain ⟨f, v⟩ := p
    by_cases h0 : v = []
    · have e1 : qName (f, v) = false := by simp [qName, h0]
      have e2 : qNamePart (f, v) = false := by simp [qNamePart, h0]
      have e3 : qEmail (f, v) = false := by simp [qEmail, h0]
      have e4 : qAddress (f, v) = false := by simp [qAddress, h0]
      have e5 : qDevice (f, v) = false := by simp [qDevice, h0]
      simp only [piiLoop, if_pos h0, ih, List.countP_cons, List.any_cons,
        e1, e2, e3, e4, e5, Bool.false_or]
      simp
    · by_cases h1 : f = "name" ∧ is_valid_name v = true
      · have e1 : qName (f, v) = true := by simp [qName, h0, h1.1, h1.2]
        have e2 : qNamePart (f, v) = false := by simp [qNamePart, h1.1]
        have e3 : qEmail (f, v) = false := by simp [qEmail, h1.1]
        have e4 : qAddress (f, v) = false := by simp [qAddress, h1.1]
        have e5 : qDevice (f, v) = false := by simp [qDevice, h1.1]
        simp only [piiLoop, if_neg h0, if_pos h1, ih, List.countP_cons, List.any_cons,
          e1, e2, e3, e4, e5, Bool.false_or, List.length_append, List.mem_append]
        simp
        by_cases hm : "name_parts" ∈ acc <;> omega
      · by_cases h2 : (f = "first_name" ∨ f = "last_name") ∧ 2 ≤ (strip v).length
        · have e1 : qName (f, v) = false := by
            rcases h2.1 with hf | hf <;> subst hf <;> simp [qName]
          have e2 : qNamePart (f, v) = true := by simp [qNamePart, h0, h2.1, h2.2]
          have e3 : qEmail (f, v) = false := by
            rcases h2.1 with hf | hf <;> subst hf <;> simp [qEmail]
          have e4 : qAddress (f, v) = false := by
            rcases h2.1 with hf | hf <;> subst hf <;> simp [qAddress]
          have e5 : qDevice (f, v) = false := by
            rcases h2.1 with hf | hf <;> subst hf <;> simp [qDevice]
          by_cases h2m : "name_parts" ∈ acc
          · simp only [piiLoop, if_neg h0, if_neg h1, if_pos h2, if_pos h2m, ih,
              List.countP_cons, List.any_cons, e1, e2, e3, e4, e5, Bool.true_or]
            simp [h2m]
          · simp only [piiLoop, if_neg h0, if_neg h1, if_pos h2, if_neg h2m, ih,
              List.countP_cons, List.any_cons, e1, e2, e3, e4, e5, Bool.true_or,
              List.length_append, List.mem_append]
            simp [h2m]
            omega
        · by_cases h3 : f = "email" ∧ is_valid_email v = true
          · have e1 : qName (f, v) = false := by simp [qName, h3.1]
            have e2 : qNamePart (f, v) = false := by simp [qNamePart, h3.1]
            have e3 : qEmail (f, v) = true := by simp [qEmail, h0, h3.1, h3.2]
            have e4 : qAddress (f, v) = false := by simp [qAddress, h3.1]
            have e5 : qDevice (f, v) = false := by simp [qDevice, h3.1]
            simp only [piiLoop, if_neg h0, if_neg h1, if_neg h2, if_pos h3, ih,
              List.countP_cons, List.any_cons, e1, e2, e3, e4, e5, Bool.false_or,
              List.length_append, List.mem_append]
            simp
            by_cases hm : "name_parts" ∈ acc <;> (try simp [hm]) <;> omega
          · by_cases h4 : f = "address" ∧ is_valid_address v = true
            · have e1 : qName (f, v) = false := by simp [qName, h4.1]
              have e2 : qNamePart (f, v) = false := by simp [qNamePart, h4.1]
              have e3 : qEmail (f, v) = false := by simp [qEmail, h4.1]
              have e4 : qAddress (f, v) = true := by simp [qAddress, h0, h4.1, h4.2]
              have e5 : qDevice (f, v) = false := by simp [qDevice, h4.1]
              simp only [piiLoop, if_neg h0, if_neg h1, if_neg h2, if_neg h3, if_pos h4,
                ih, List.countP_cons, List.any_cons, e1, e2, e3, e4, e5, Bool.false_or,
                List.length_append, List.mem_append]
              simp
              by_cases hm : "name_parts" ∈ acc <;> (try simp [hm]) <;> omega
            · by_cases h5 : (f = "device_id" ∨ f = "ip_address") ∧ 5 ≤ (strip v).length
              · have e1 : qName (f, v) = false := by
                  rcases h5.1 with hf | hf <;> subst hf <;> simp [qName]
                have e2 : qNamePart (f, v) = false := by
                  rcases h5.1 with hf | hf <;> subst hf <;> simp [qNamePart]
                have e3 : qEmail (f, v) = false := by
                  rcases h5.1 with hf | hf <;> subst hf <;> simp [qEmail]
                have e4 : qAddress (f, v) = false := by
                  rcases h5.1 with hf | hf <;> subst hf <;> simp [qAddress]
                have e5 : qDevice (f, v) = true := by simp [qDevice, h0, h5.1, h5.2]
                simp only [piiLoop, if_neg h0, if_neg h1, if_neg h2, if_neg h3, if_neg h4,
                  if_pos h5, ih, List.countP_cons, List.any_cons, e1, e2, e3, e4, e5,
                  Bool.false_or, List.length_append, List.mem_append]
                simp
                by_cases hm : "name_parts" ∈ acc <;> (try simp [hm]) <;> omega
              · have e1 : qName (f, v) = false := by simp [qName, h1]
                have e2 : qNamePart (f, v) = false := by simp [qNamePart, h2]
                have e3 : qEmail (f, v) = false := by simp [qEmail, h3]
                have e4 : qAddress (f, v) = false := by simp [qAddress, h4]
                have e5 : qDevice (f, v) = false := by simp [qDevice, h5]
                simp only [piiLoop, if_neg h0, if_neg h1, if_neg h2, if_neg h3, if_neg h4,
                  if_neg h5, ih, List.countP_cons, List.any_cons, e1, e2, e3, e4, e5,
                  Bool.false_or]
                simp

/-- Claim C1 (amended: the `device_info` category label is appended once
per qualifying field rather than deduplicated, so a record whose only
qualifying fields are `device_id` and `ip_address` yields true): the
combinatorial test fires iff the collected category labels — `name`,
`email`, `address` once each, `name_parts` at most once, `device_info`
once per qualifying device field — number at least 2. -/
theorem claim1_combinatorial (data : List (String × List Char)) :
    has_combinatorial_pii data = true ↔ 2 ≤ categoryCount data := by
  have h := piiLoop_length data []
  simp only [List.length_nil, List.not_mem_nil, if_false, Nat.zero_add] at h
  simp only [has_combinatorial_pii, decide_eq_true_eq, piiLoop, h, categoryCount]

/-- Claim C1 witness. -/
theorem claim1_witness :
    has_combinatorial_pii [("first_name", ['A', 'l']), ("device_id", ['a', 'b', 'c', '1', '2'])]
      = true := by
  exact (claim1_combinatorial
    [("first_name", ['A', 'l']), ("device_id", ['a', 'b', 'c', '1', '2'])]).mpr (by decide)

lemma anyKey_iff {κ ν : Type} [DecidableEq κ] {m : List (κ × ν)} {k : κ} :
    m.any (fun p => decide (p.1 = k)) = true ↔ k ∈ m.map Prod.fst := by
  simp [List.any_eq_true, List.mem_map]

lemma update_keys {κ ν : Type} [DecidableEq κ] (m : List (κ × ν)) (k : κ) (v : ν) :
    (m.map (fun p => if p.1 = k then (k, v) else p)).map Prod.fst = m.map Prod.fst := by
  rw [List.map_map]
  apply List.map_eq_map_iff.mpr
  intro p _
  by_cases h : p.1 = k
  · simp [Function.comp, h]
  · simp [Function.comp, h]

lemma setKV_absent {κ ν : Type} [DecidableEq κ] {m : List (κ × ν)} {k : κ} (v : ν)
    (h : ¬ m.any (fun p => decide (p.1 = k)) = true) : setKV m k v = m ++ [(k, v)] := by
  unfold setKV
  rw [if_neg h]

lemma setKV_keys_nodup {κ ν : Type} [DecidableEq κ] {m : List (κ × ν)} (k : κ) (v : ν)
    (h : (m.map Prod.fst).Nodup) : ((setKV m k v).map Prod.fst).Nodup := by
  unfold setKV
  split_ifs with hany
  · rw [update_keys]
    exact h
  · rw [List.map_append]
    simp only [List.nodup_append, List.map_cons, List.map_nil]
    refine ⟨h, by simp, ?_⟩
    intro a ha
    simp only [List.mem_cons, List.not_mem_nil, or_false]
    intro hk
    subst hk
    exact hany (anyKey_iff.mpr ha)

lemma apply_masks_keys (pii : List (String × List Char)) :
    ∀ data, (apply_masks data pii).map Prod.fst = data.map Prod.fst := by
  induction pii with
  | nil => intro data; rfl
  | cons q rest ih =>
    intro data
    show (apply_masks (if data.any (fun p => decide (p.1 = q.1)) then
      setKV data q.1 q.2 else data) rest).map Prod.fst = data.map Prod.fst
    rw [ih]
    split_ifs with hany
    · unfold setKV
      rw [if_pos hany, update_keys]
    · rfl

lemma apply_masks_mem (pii : List (String × List Char)) :
    ∀ data (p : String × List Char), p ∈ data → p.1 ∉ pii.map Prod.fst →
      p ∈ apply_masks data pii := by
  induction pii with
  | nil => intro data p hp _; exact hp
  | cons q rest ih =>
    intro data p hp hk
    simp only [List.map_cons, List.mem_cons, not_or] at hk
    show p ∈ apply_masks (if data.any (fun r => decide (r.1 = q.1)) then
      setKV data q.1 q.2 else data) rest
    apply ih _ p _ hk.2
    split_ifs with hany
    · unfold setKV
      rw [if_pos hany]
      have hfix : (fun r => if r.1 = q.1 then (q.1, q.2) else r) p = p := by
        show (if p.1 = q.1 then (q.1, q.2) else p) = p
        rw [if_neg hk.1]
      rw [← hfix]
      exact List.mem_map_of_mem _ hp
    · exact hp

/-- Claim C9: when the record carries PII, the structured
re-serialization keeps the record's field list (in order) unchanged, and
every field whose name the masked-field mapping does not mention keeps
exactly its decoded pair. -/
theorem claim9_reserialization (data : List (String × List Char))
    (_hpii : (detect_pii_in_record data).1 = true) :
    (apply_masks data (detect_pii_in_record data).2).map Prod.fst = data.map Prod.fst ∧
    ∀ p ∈ data, p.1 ∉ (detect_pii_in_record data).2.map Prod.fst →
      p ∈ apply_masks data (detect_pii_in_record data).2 :=
  ⟨apply_masks_keys _ _, fun p hp hk => apply_masks_mem _ _ p hp hk⟩

/-- Claim C9 witness. -/
theorem claim9_witness :
    (apply_masks [("phone", ['9', '8', '7', '6', '5', '4', '3', '2', '1', '0']),
        ("note", ['h', 'i'])]
      (detect_pii_in_record [("phone", ['9', '8', '7', '6', '5', '4', '3', '2', '1', '0']),
        ("note", ['h', 'i'])]).2).map Prod.fst =
      [("phone", ['9', '8', '7', '6', '5', '4', '3', '2', '1', '0']),
        ("note", ['h', 'i'])].map Prod.fst :=
  (claim9_reserialization
    [("phone", ['9', '8', '7', '6', '5', '4', '3', '2', '1', '0']), ("note", ['h', 'i'])]
    (by decide)).1

lemma lookup_append_left {f : String} :
    ∀ (m l : List (String × List Char)), f ∈ m.map Prod.fst →
      List.lookup f (m ++ l) = List.lookup f m := by
  intro m l h
  induction m with
  | nil => simp at h
  | cons q m' ih =>
    obtain ⟨k, v⟩ := q
    by_cases hk : k = f
    · subst hk
      simp [List.lookup]
    · simp only [List.map_cons, List.mem_cons] at h
      rcases h with h | h
      · exact absurd h.symm hk
      · have hbeq : (f == k) = false := by
          simp only [beq_eq_false_iff_ne, ne_eq]
          exact fun hc => hk hc.symm
        simp only [List.cons_append, List.lookup, hbeq]
        exact ih h

lemma step1_aux_nodup :
    ∀ (data : List (String × List Char)) (m : List (String × List Char)),
      (m.map Prod.fst).Nodup →
      ((data.foldl
          (fun m p => if is_standalone_pii p.1 p.2 then setKV m p.1 (mask_value p.1 p.2) else m)
          m).map Prod.fst).Nodup := by
  intro data
  induction data with
  | nil => intro m h; exact h
  | cons p rest ih =>
    intro m h
    rw [List.foldl_cons]
    apply ih
    split_ifs with hs
    · exact setKV_keys_nodup _ _ h
    · exact h

lemma step1_nodup (data : List (String × List Char)) :
    ((step1Fields data).map Prod.fst).Nodup :=
  step1_aux_nodup data [] (by simp)

lemma step2Update_cases (m : List (String × List Char)) (p : String × List Char) :
    step2Update m p = m ∨
      (¬ m.any (fun q => decide (q.1 = p.1)) = true ∧
        ∃ x, step2Update m p = m ++ [(p.1, x)]) := by
  unfold step2Update
  by_cases h : p.1 ∈ combinatorial_fields ∧ p.2 ≠ [] ∧
      ¬ m.any (fun q => decide (q.1 = p.1)) = true
  · rw [if_pos h]
    split_ifs with h1 h2 h3 h4 h5
    · exact Or.inr ⟨h.2.2, _, setKV_absent _ h.2.2⟩
    · exact Or.inr ⟨h.2.2, _, setKV_absent _ h.2.2⟩
    · exact Or.inr ⟨h.2.2, _, setKV_absent _ h.2.2⟩
    · exact Or.inr ⟨h.2.2, _, setKV_absent _ h.2.2⟩
    · exact Or.inr ⟨h.2.2, _, setKV_absent _ h.2.2⟩
    · exact Or.inl rfl
  · rw [if_neg h]
    exact Or.inl rfl

lemma step2_preserve :
    ∀ (data : List (String × List Char)) (m : List (String × List Char)),
      (m.map Prod.fst).Nodup →
      ((step2Fields data m).map Prod.fst).Nodup ∧
        ∀ f, f ∈ m.map Prod.fst →
          List.lookup f (step2Fields data m) = List.lookup f m := by
  intro data
  induction data with
  | nil => intro m h; exact ⟨h, fun _ _ => rfl⟩
  | cons p rest ih =>
    intro m h
    have hstep : step2Fields (p :: rest) m = step2Fields rest (step2Update m p) := rfl
    rcases step2Update_cases m p with hcase | ⟨habs, x, hcase⟩
    · rw [hstep, hcase]
      exact ih m h
    · rw [hstep, hcase]
      have hnotmem : p.1 ∉ m.map Prod.fst := fun hmem => habs (anyKey_iff.mpr hmem)
      have hnm : (m ++ [(p.1, x)]).map Prod.fst = m.map Prod.fst ++ [p.1] := by simp
      have hnodup : ((m ++ [(p.1, x)]).map Prod.fst).Nodup := by
        rw [hnm]
        simp only [List.nodup_append, List.nodup_cons, List.not_mem_nil, not_false_iff,
          List.nodup_nil, and_true, true_and]
        refine ⟨h, ?_⟩
        intro a ha
        simp only [List.mem_cons, List.not_mem_nil, or_false]
        intro hc
        subst hc
        exact hnotmem ha
      obtain ⟨ihn, ihl⟩ := ih (m ++ [(p.1, x)]) hnodup
      refine ⟨ihn, ?_⟩
      intro f hf
      rw [ihl f (by rw [hnm]; exact List.mem_append_left _ hf)]
      exact lookup_append_left m [(p.1, x)] hf

/-- Claim C6: a field masked by the standalone pass keeps exactly that
mask in the final masked-field mapping (the combinatorial pass never
overwrites it), and the mapping's field names are pairwise distinct. -/
theorem claim6_first_writer (data : List (String × List Char)) :
    (∀ f, f ∈ (step1Fields data).map Prod.fst →
      List.lookup f (detect_pii_in_record data).2 = List.lookup f (step1Fields data)) ∧
    ((detect_pii_in_record data).2.map Prod.fst).Nodup := by
  have h1 := step1_nodup data
  by_cases hC : has_combinatorial_pii data = true
  · have hsnd : (detect_pii_in_record data).2 = step2Fields data (step1Fields data) := by
      simp [detect_pii_in_record, hC]
    rw [hsnd]
    obtain ⟨hn, hl⟩ := step2_preserve data (step1Fields data) h1
    exact ⟨fun f hf => hl f hf, hn⟩
  · have hsnd : (detect_pii_in_record data).2 = step1Fields data := by
      simp [detect_pii_in_record, hC]
    rw [hsnd]
    exact ⟨fun _ _ => rfl, h1⟩

/-- Claim C6 witness. -/
theorem claim6_witness :
    List.lookup "phone"
      (detect_pii_in_record
        [("phone", ['9', '8', '7', '6', '5', '4', '3', '2', '1', '0'])]).2 =
    List.lookup "phone"
      (step1Fields [("phone", ['9', '8', '7', '6', '5', '4', '3', '2', '1', '0'])]) :=
  (claim6_first_writer
    [("phone", ['9', '8', '7', '6', '5', '4', '3', '2', '1', '0'])]).1 "phone" (by decide)

lemma getLast?_cons_ne (a : Char) {l : List Char} (h : l ≠ []) :
    (a :: l).getLast? = l.getLast? := by
  cases l with
  | nil => exact absurd rfl h
  | cons b t => exact List.getLast?_cons_cons

lemma searchLen_cons (mlen : Option Char → List Char → Option Nat) (prev : Option Char)
    (c : Char) (rest : List Char) :
    searchLen mlen prev (c :: rest) =
      ((mlen prev (c :: rest)).isSome || searchLen mlen (some c) rest) := by
  rw [searchLen]

lemma searchLen_split (mlen : Option Char → List Char → Option Nat) :
    ∀ (s : List Char) (prev : Option Char),
      searchLen mlen prev s = true ↔
        ((mlen prev s).isSome = true ∨
          ∃ u w, s = u ++ w ∧ u ≠ [] ∧ (mlen u.getLast? w).isSome = true) := by
  intro s
  induction s with
  | nil =>
    intro prev
    rw [searchLen]
    simp only [Bool.or_eq_true]
    constructor
    · rintro (h | h)
      · exact Or.inl h
      · exact absurd h (by simp)
    · rintro (h | ⟨u, w, he, hu, _⟩)
      · exact Or.inl h
      · rcases List.append_eq_nil.mp he.symm with ⟨h1, _⟩
        exact absurd h1 hu
  | cons c rest ih =>
    intro prev
    rw [searchLen_cons]
    simp only [Bool.or_eq_true]
    constructor
    · rintro (h | h)
      · exact Or.inl h
      · rcases (ih (some c)).mp h with hm | ⟨u, w, he, hu, hm⟩
        · exact Or.inr ⟨[c], rest, rfl, by simp, hm⟩
        · refine Or.inr ⟨c :: u, w, by rw [he, List.cons_append], by simp, ?_⟩
          rwa [getLast?_cons_ne c hu]
    · rintro (h | ⟨u, w, he, hu, hm⟩)
      · exact Or.inl h
      · cases u with
        | nil => exact absurd rfl hu
        | cons c' u' =>
          rw [List.cons_append] at he
          injection he with he1 he2
          subst he1
          refine Or.inr ((ih (some c)).mpr ?_)
          cases u' with
          | nil =>
            rw [List.nil_append] at he2
            subst he2
            exact Or.inl (by simpa using hm)
          | cons d t =>
            refine Or.inr ⟨d :: t, w, he2, by simp, ?_⟩
            rwa [getLast?_cons_ne c (by simp)] at hm

lemma reSearch_split (mlen : Option Char → List Char → Option Nat) (s : List Char) :
    reSearch mlen s = true ↔
      ∃ u w, s = u ++ w ∧ (mlen u.getLast? w).isSome = true := by
  rw [reSearch, searchLen_split]
  constructor
  · rintro (h | ⟨u, w, he, _, hm⟩)
    · exact ⟨[], s, rfl, h⟩
    · exact ⟨u, w, he, hm⟩
  · rintro ⟨u, w, he, hm⟩
    cases u with
    | nil =>
      rw [List.nil_append] at he
      subst he
      exact Or.inl (by simpa using hm)
    | cons c t => exact Or.inr ⟨c :: t, w, he, by simp, hm⟩

lemma scanIter_nil (mlen : Option Char → List Char → Option Nat) :
    ∀ (s : List Char) (prev : Option Char) (fuel : Nat),
      searchLen mlen prev s = false → scanIter mlen fuel prev s = [] := by
  intro s
  induction s with
  | nil =>
    intro prev fuel _
    cases fuel <;> rfl
  | cons c rest ih =>
    intro prev fuel h
    rw [searchLen_cons] at h
    simp only [Bool.or_eq_false_iff] at h
    have hm : mlen prev (c :: rest) = none := by
      rcases hmm : mlen prev (c :: rest) with _ | n
      · rfl
      · rw [hmm] at h
        simp at h
    cases fuel with
    | zero => rfl
    | succ fuel =>
      rw [scanIter, hm]
      exact ih (some c) fuel h.2

lemma scanSub_self (mlen : Option Char → List Char → Option Nat) (repl : List Char) :
    ∀ (s : List Char) (prev : Option Char) (fuel : Nat),
      searchLen mlen prev s = false → scanSub mlen repl fuel prev s = s := by
  intro s
  induction s with
  | nil =>
    intro prev fuel _
    cases fuel <;> rfl
  | cons c rest ih =>
    intro prev fuel h
    rw [searchLen_cons] at h
    simp only [Bool.or_eq_false_iff] at h
    have hm : mlen prev (c :: rest) = none := by
      rcases hmm : mlen prev (c :: rest) with _ | n
      · rfl
      · rw [hmm] at h
        simp at h
    cases fuel with
    | zero => rfl
    | succ fuel =>
      rw [scanSub, hm]
      rw [ih (some c) fuel h.2]

/-- Claim C8: the raw-text fallback detects PII iff one of the five
pattern recognizers matches at some position of the text (unanchored
search over every split), and when nothing is detected the redaction
returns the text unchanged. -/
theorem claim8_raw_fallback (s : List Char) :
    (detect_pii_in_raw_string s = true ↔
      ∃ u w, s = u ++ w ∧
        ((phoneLen u.getLast? w).isSome = true ∨ (aadharLen u.getLast? w).isSome = true ∨
          (passportLen u.getLast? w).isSome = true ∨ (upiLen u.getLast? w).isSome = true ∨
          (emailLen u.getLast? w).isSome = true)) ∧
    (detect_pii_in_raw_string s = false → redact_pii_in_raw_string s = s) := by
  constructor
  · unfold detect_pii_in_raw_string
    simp only [Bool.or_eq_true, reSearch_split]
    constructor
    · rintro ((((⟨u, w, he, hm⟩ | ⟨u, w, he, hm⟩) | ⟨u, w, he, hm⟩) | ⟨u, w, he, hm⟩) |
        ⟨u, w, he, hm⟩)
      · exact ⟨u, w, he, Or.inl hm⟩
      · exact ⟨u, w, he, Or.inr (Or.inl hm)⟩
      · exact ⟨u, w, he, Or.inr (Or.inr (Or.inl hm))⟩
      · exact ⟨u, w, he, Or.inr (Or.inr (Or.inr (Or.inl hm)))⟩
      · exact ⟨u, w, he, Or.inr (Or.inr (Or.inr (Or.inr hm)))⟩
    · rintro ⟨u, w, he, (hm | hm | hm | hm | hm)⟩
      · exact Or.inl (Or.inl (Or.inl (Or.inl ⟨u, w, he, hm⟩)))
      · exact Or.inl (Or.inl (Or.inl (Or.inr ⟨u, w, he, hm⟩)))
      · exact Or.inl (Or.inl (Or.inr ⟨u, w, he, hm⟩))
      · exact Or.inl (Or.inr ⟨u, w, he, hm⟩)
      · exact Or.inr ⟨u, w, he, hm⟩
  · intro h
    unfold detect_pii_in_raw_string at h
    simp only [Bool.or_eq_false_iff] at h
    obtain ⟨⟨⟨⟨h1, h2⟩, h3⟩, h4⟩, h5⟩ := h
    unfold redact_pii_in_raw_string finditer reSub
    rw [scanIter_nil phoneLen s none s.length h1, scanIter_nil aadharLen s none s.length h2]
    simp only [List.foldl_nil]
    rw [scanSub_self passportLen redactToken s none s.length h3,
      scanSub_self upiLen redactToken s none s.length h4,
      scanSub_self emailLen redactToken s none s.length h5]

/-- Claim C8 witness. -/
theorem claim8_witness : redact_pii_in_raw_string ['h', 'i'] = ['h', 'i'] :=
  (claim8_raw_fallback ['h', 'i']).2 (by decide)

end PII
